import Mathlib

/- Shallow embedding of `AudioPreprocessor` from `src/__init__.py` of the
audio-noise-floor-augment repository.  Audio samples are modelled as
rationals and numpy arrays as `List ℚ`; machine-level floating point is
abstracted to exact rational arithmetic, except where the source's IEEE
behaviour at a zero denominator is semantically relevant (see
`smooth_transition_factor`). -/

/-- Python `int()` applied to a (rational-valued) real: truncation toward
zero, i.e. `floor` for nonnegative arguments and `ceil` for negative ones. -/
def pyint (q : ℚ) : ℤ :=
  if 0 ≤ q then ⌊q⌋ else ⌈q⌉

/-- `int(seconds * sample_rate)` — the derivation of `window_size` and
`skip_size` at lines 37-38 of `calculate_noise_floor`. -/
def derivedWindow (seconds : ℚ) (sample_rate : ℕ) : ℤ :=
  pyint (seconds * sample_rate)

/-- `np.max(np.abs(l))`.  Since `|x| ≥ 0` for every sample, folding `max`
with initial accumulator `0` agrees with numpy's maximum on every nonempty
list; on the empty list (where numpy raises) it returns `0`. -/
def maxAbs (l : List ℚ) : ℚ :=
  l.foldl (fun m x => max m |x|) 0

/-- Python `min(l, default=d)`: the minimum of the list, or `d` when the
list is empty. -/
def minD (l : List ℚ) (d : ℚ) : ℚ :=
  match l with
  | [] => d
  | x :: xs => xs.foldl min x

/-- The slice `data[i:i+window_size]` at line 44. -/
def windowSlice (data : List ℚ) (i ws : ℕ) : List ℚ :=
  (data.drop i).take ws

/-- `window_max = np.max(np.abs(window))` at line 45. -/
def windowMax (data : List ℚ) (i ws : ℕ) : ℚ :=
  maxAbs (windowSlice data i ws)

/-- The offsets produced by `range(0, len(data) - window_size, skip_size)`
at line 43: `0, skip, 2*skip, …` strictly below `len - ws` (empty when
`len ≤ ws`, matching Python's empty range for a nonpositive stop).  For
`skip = 0` Python's `range` raises `ValueError` while this model returns
`[]`; theorems about the scan therefore restrict themselves to
`0 < skip` (and to `0 < ws`, since `np.max` raises on the empty window a
zero width would produce). -/
def offsets (len ws skip : ℕ) : List ℕ :=
  (List.range ((len - ws + skip - 1) / skip)).map (fun k => k * skip)

/-- The scanning loop of `calculate_noise_floor` (lines 43-51): walk the
window offsets, stopping as soon as a window maximum exceeds
`nfloor_max_frac * (max_amp - min(accepted, default=max_amp))`, otherwise
appending the window maximum to the accepted list. -/
def scanLoop (frac max_amp : ℚ) (data : List ℚ) (ws : ℕ) :
    List ℕ → List ℚ → List ℚ
  | [], acc => acc
  | i :: rest, acc =>
    let wmax := windowMax data i ws
    if frac * (max_amp - minD acc max_amp) < wmax then acc
    else scanLoop frac max_amp data ws rest (acc ++ [wmax])

/-- `AudioPreprocessor.calculate_noise_floor` (lines 35-55): returns
`(nfloor_amp, max_amp)`. -/
def calculate_noise_floor (win_nfloor_s win_skip_s nfloor_max_frac : ℚ)
    (data : List ℚ) (sample_rate : ℕ) : ℚ × ℚ :=
  let window_size := (derivedWindow win_nfloor_s sample_rate).toNat
  let skip_size := (derivedWindow win_skip_s sample_rate).toNat
  let max_amp := maxAbs data
  let nfloor_amplitudes :=
    scanLoop nfloor_max_frac max_amp data window_size
      (offsets data.length window_size skip_size) []
  (minD nfloor_amplitudes 0, max_amp)

/-- The expression
`max(0, min(1, (abs_val - nfloor_amp) / (smooth_amp_frac * (max_amp - nfloor_amp))))`
at lines 66-69.  The source has no explicit zero-denominator guard: when the
denominator is `0`, numpy float64 division yields `+inf` for a positive
numerator (clamped to `1` by `min`), `-inf` for a negative one (clamped to
`0` by `max`), and `nan` for a zero numerator, which Python's builtin
`min(1, nan)` maps to `1`.  The `if denom = 0` branch below transcribes
exactly those IEEE outcomes into the rational model. -/
def smooth_transition_factor (smooth_amp_frac nfloor_amp max_amp abs_val : ℚ) : ℚ :=
  let num := abs_val - nfloor_amp
  let denom := smooth_amp_frac * (max_amp - nfloor_amp)
  if denom = 0 then (if num < 0 then 0 else 1)
  else max 0 (min 1 (num / denom))

/-- `amplitude_adjustment = (1 - t) + t * r` at line 73. -/
def amplitude_adjustment (t r : ℚ) : ℚ :=
  (1 - t) + t * r

/-- The loop body of `adjust_amplitude` (lines 61-76) for one sample `s`,
given the random draw `r` for its index: samples with `|s| > nfloor_amp`
are scaled by the adjustment factor, all others pass through unchanged. -/
def adjustSample (smooth_amp_frac nfloor_amp max_amp r s : ℚ) : ℚ :=
  if nfloor_amp < |s| then
    s * amplitude_adjustment
        (smooth_transition_factor smooth_amp_frac nfloor_amp max_amp |s|) r
  else s

/-- `AudioPreprocessor.adjust_amplitude` (lines 57-78).  The random source
is modelled as a function from sample index to draw, matching the spec's
injectable `RandomSource` (the source draws lazily, only for qualifying
samples, but in index order, so the index-to-draw map determines the
output). -/
def adjust_amplitude (smooth_amp_frac nfloor_amp max_amp : ℚ)
    (rand : ℕ → ℚ) (data : List ℚ) : List ℚ :=
  (List.range data.length).map
    (fun i => adjustSample smooth_amp_frac nfloor_amp max_amp (rand i) (data.getD i 0))

/-- The concrete test signal of the spec's §8 scenario: 1000 samples, the
first 200 of amplitude `1/100`, the remaining 800 of amplitude `9/10`. -/
def c1data : List ℚ :=
  List.replicate 200 (1/100) ++ List.replicate 800 (9/10)

/-- A 6-sample signal at `sample_rate = 100` whose first window (5 samples
of amplitude `1/20`) sits below one tenth of the peak amplitude `1`. -/
def c2data : List ℚ :=
  List.replicate 5 (1/20) ++ [1]

/- Helper lemmas about the embedded operations. -/

/-- For a nonnegative argument, Python truncation agrees with the floor. -/
theorem pyint_of_nonneg {q : ℚ} (h : 0 ≤ q) : pyint q = ⌊q⌋ :=
  if_pos h

/-- Evaluation rule for `derivedWindow` at nonnegative durations. -/
theorem derivedWindow_eq {s : ℚ} {rate : ℕ} {z : ℤ} (h0 : 0 ≤ s)
    (h1 : (z : ℚ) ≤ s * rate) (h2 : s * rate < z + 1) :
    derivedWindow s rate = z := by
  rw [derivedWindow, pyint_of_nonneg (mul_nonneg h0 (Nat.cast_nonneg rate))]
  exact Int.floor_eq_iff.2 ⟨h1, h2⟩

theorem le_foldl_maxAbs (l : List ℚ) (a : ℚ) :
    a ≤ l.foldl (fun m x => max m |x|) a := by
  induction l generalizing a with
  | nil => exact le_refl a
  | cons x xs ih => exact le_trans (le_max_left a |x|) (ih (max a |x|))

theorem mem_le_foldl_maxAbs {x : ℚ} {l : List ℚ} (hx : x ∈ l) (a : ℚ) :
    |x| ≤ l.foldl (fun m y => max m |y|) a := by
  induction l generalizing a with
  | nil => exact absurd hx (List.not_mem_nil x)
  | cons y ys ih =>
    rcases List.mem_cons.1 hx with h | h
    · subst h
      exact le_trans (le_max_right a |x|) (le_foldl_maxAbs ys (max a |x|))
    · exact ih h (max a |y|)

theorem foldl_maxAbs_le {l : List ℚ} {B : ℚ} (a : ℚ) (ha : a ≤ B)
    (h : ∀ x ∈ l, |x| ≤ B) : l.foldl (fun m y => max m |y|) a ≤ B := by
  induction l generalizing a with
  | nil => exact ha
  | cons y ys ih =>
    exact ih (max a |y|) (max_le ha (h y (List.mem_cons_self y ys)))
      (fun x hx => h x (List.mem_cons_of_mem _ hx))

theorem maxAbs_nonneg (l : List ℚ) : 0 ≤ maxAbs l :=
  le_foldl_maxAbs l 0

theorem le_maxAbs_of_mem {x : ℚ} {l : List ℚ} (hx : x ∈ l) : |x| ≤ maxAbs l :=
  mem_le_foldl_maxAbs hx 0

theorem maxAbs_le {l : List ℚ} {B : ℚ} (h : ∀ x ∈ l, |x| ≤ B) (hB : 0 ≤ B) :
    maxAbs l ≤ B :=
  foldl_maxAbs_le 0 hB h

theorem windowMax_nonneg (data : List ℚ) (i ws : ℕ) : 0 ≤ windowMax data i ws :=
  maxAbs_nonneg _

theorem windowSlice_subset (data : List ℚ) (i ws : ℕ) :
    windowSlice data i ws ⊆ data :=
  fun _ hx => List.drop_subset i data (List.take_subset ws (data.drop i) hx)

theorem windowMax_le_maxAbs (data : List ℚ) (i ws : ℕ) :
    windowMax data i ws ≤ maxAbs data :=
  maxAbs_le (fun x hx => le_maxAbs_of_mem (windowSlice_subset data i ws hx))
    (maxAbs_nonneg data)

theorem foldl_min_mem (xs : List ℚ) (a : ℚ) : xs.foldl min a ∈ a :: xs := by
  induction xs generalizing a with
  | nil => exact List.mem_singleton.2 rfl
  | cons y ys ih =>
    rw [List.foldl_cons]
    rcases List.mem_cons.1 (ih (min a y)) with h | h
    · rw [h]
      rcases min_choice a y with h1 | h1
      · rw [h1]; exact List.mem_cons_self a (y :: ys)
      · rw [h1]; exact List.mem_cons_of_mem _ (List.mem_cons_self y ys)
    · exact List.mem_cons_of_mem _ (List.mem_cons_of_mem _ h)

theorem minD_mem {l : List ℚ} (d : ℚ) (h : l ≠ []) : minD l d ∈ l := by
  cases l with
  | nil => exact absurd rfl h
  | cons x xs => exact foldl_min_mem xs x

theorem minD_zero_cases (l : List ℚ) : minD l 0 = 0 ∨ minD l 0 ∈ l := by
  cases l with
  | nil => exact Or.inl rfl
  | cons x xs => exact Or.inr (minD_mem 0 (by simp))

theorem offsets_nil_of_le {len ws : ℕ} (skip : ℕ) (h : len ≤ ws) :
    offsets len ws skip = [] := by
  rw [offsets, Nat.sub_eq_zero_of_le h]
  rcases Nat.eq_zero_or_pos skip with hs | hs
  · subst hs; rfl
  · rw [Nat.div_eq_of_lt (by omega)]; rfl

theorem offsets_div_iff {len ws skip : ℕ} (hs : 0 < skip) (k : ℕ) :
    k < (len - ws + skip - 1) / skip ↔ k * skip + ws < len := by
  rw [Nat.lt_iff_add_one_le, Nat.le_div_iff_mul_le hs, Nat.succ_mul]
  generalize k * skip = a
  omega

/-- C5 (amended): the scan's offset list consists exactly of the multiples of
`skip_size` satisfying `offset + window_size < len(signal)` (strict
inequality): the loop `range(0, len(data) - window_size, skip_size)` never
examines an offset with `offset + window_size = len(signal)`. -/
theorem c5_offsets_characterization (len ws skip : ℕ) (hs : 0 < skip) (i : ℕ) :
    i ∈ offsets len ws skip ↔ skip ∣ i ∧ i + ws < len := by
  rw [offsets]
  simp only [List.mem_map, List.mem_range]
  constructor
  · rintro ⟨k, hk, rfl⟩
    exact ⟨dvd_mul_left skip k, (offsets_div_iff hs k).1 hk⟩
  · rintro ⟨⟨k, rfl⟩, h⟩
    refine ⟨k, (offsets_div_iff hs k).2 ?_, mul_comm k skip⟩
    rwa [mul_comm]

/-- C5 (counterexample): with a 100-sample signal, `window_size = 50` and
`skip_size = 50`, the offset `50` satisfies `offset + window_size ≤ len`
but is not among the offsets the scan examines. -/
theorem c5_last_offset_not_examined :
    50 + 50 ≤ 100 ∧ ¬ (50 ∈ offsets 100 50 50) := by decide

theorem c5_witness :
    0 < 20 ∧ ((40 ∈ offsets 1000 50 20) ↔ (20 ∣ 40 ∧ 40 + 50 < 1000)) :=
  ⟨by decide, c5_offsets_characterization 1000 50 20 (by decide) 40⟩

/-- C6 (amended): for every nonnegative duration and every sample rate, the
derived window parameter equals the floor (Python `int` truncation) of
`seconds * sample_rate`, not its rounding to the nearest integer. -/
theorem c6_window_size_floor (seconds : ℚ) (rate : ℕ) (h : 0 ≤ seconds) :
    derivedWindow seconds rate = ⌊seconds * (rate : ℚ)⌋ := by
  rw [derivedWindow, pyint_of_nonneg (mul_nonneg h (Nat.cast_nonneg rate))]

/-- C6 (counterexample): at `sample_rate = 1019` with the default
`win_nfloor_s = 1/20`, the code derives `window_size = int(50.95) = 50`,
whereas rounding to the nearest integer gives `51`. -/
theorem c6_trunc_ne_round :
    derivedWindow (1/20) 1019 ≠ round ((1/20 : ℚ) * ((1019 : ℕ) : ℚ)) := by
  have h1 : derivedWindow (1/20) 1019 = 50 :=
    derivedWindow_eq (by norm_num) (by norm_num) (by norm_num)
  have h2 : round ((1/20 : ℚ) * ((1019 : ℕ) : ℚ)) = 51 := by
    rw [round_eq, Int.floor_eq_iff]
    norm_num
  rw [h1, h2]
  decide

theorem c6_witness :
    0 ≤ (1/20 : ℚ) ∧ derivedWindow (1/20) 1019 = ⌊(1/20 : ℚ) * ((1019 : ℕ) : ℚ)⌋ :=
  ⟨by norm_num, c6_window_size_floor (1/20) 1019 (by norm_num)⟩

theorem scanLoop_nil (frac ma : ℚ) (data : List ℚ) (ws : ℕ) (acc : List ℚ) :
    scanLoop frac ma data ws [] acc = acc := rfl

theorem scanLoop_cons (frac ma : ℚ) (data : List ℚ) (ws i : ℕ)
    (rest : List ℕ) (acc : List ℚ) :
    scanLoop frac ma data ws (i :: rest) acc =
      if frac * (ma - minD acc ma) < windowMax data i ws then acc
      else scanLoop frac ma data ws rest (acc ++ [windowMax data i ws]) := rfl

/-- Every element the scan accepts is either carried over from the initial
accumulator or is the maximum of some examined window. -/
theorem scanLoop_subset (frac ma : ℚ) (data : List ℚ) (ws : ℕ) :
    ∀ (offs : List ℕ) (acc : List ℚ) (x : ℚ),
      x ∈ scanLoop frac ma data ws offs acc →
      x ∈ acc ∨ ∃ i, x = windowMax data i ws := by
  intro offs
  induction offs with
  | nil =>
    intro acc x hx
    exact Or.inl hx
  | cons i rest ih =>
    intro acc x hx
    rw [scanLoop_cons] at hx
    by_cases h : frac * (ma - minD acc ma) < windowMax data i ws
    · rw [if_pos h] at hx
      exact Or.inl hx
    · rw [if_neg h] at hx
      rcases ih _ x hx with hmem | hex
      · rcases List.mem_append.1 hmem with h1 | h1
        · exact Or.inl h1
        · exact Or.inr ⟨i, List.mem_singleton.1 h1⟩
      · exact Or.inr hex

/-- C8: on every valid input (nonempty signal, positive window and skip
sizes), the estimator's result satisfies `0 ≤ noise_floor_amp ≤ max_amp`. -/
theorem c8_floor_le_max (winS skipS frac : ℚ) (data : List ℚ) (rate : ℕ)
    (nf ma : ℚ) (hdata : data ≠ [])
    (hws : 0 < (derivedWindow winS rate).toNat)
    (hskip : 0 < (derivedWindow skipS rate).toNat)
    (heq : calculate_noise_floor winS skipS frac data rate = (nf, ma)) :
    0 ≤ nf ∧ nf ≤ ma := by
  simp only [calculate_noise_floor, Prod.mk.injEq] at heq
  obtain ⟨h1, h2⟩ := heq
  subst h1
  subst h2
  rcases minD_zero_cases (scanLoop frac (maxAbs data) data
      (derivedWindow winS rate).toNat
      (offsets data.length (derivedWindow winS rate).toNat
        (derivedWindow skipS rate).toNat) []) with h | h
  · rw [h]
    exact ⟨le_refl 0, maxAbs_nonneg data⟩
  · rcases scanLoop_subset _ _ _ _ _ _ _ h with habs | ⟨i, hi⟩
    · exact absurd habs (List.not_mem_nil _)
    · rw [hi]
      exact ⟨windowMax_nonneg data i _, windowMax_le_maxAbs data i _⟩

theorem foldl_maxAbs_replicate (c a : ℚ) :
    ∀ m : ℕ, m ≠ 0 →
      (List.replicate m c).foldl (fun x y => max x |y|) a = max a |c| := by
  intro m
  induction m generalizing a with
  | zero => intro h; exact absurd rfl h
  | succ k ih =>
    intro _
    rw [List.replicate_succ, List.foldl_cons]
    rcases Nat.eq_zero_or_pos k with hk | hk
    · subst hk; rfl
    · rw [ih (max a |c|) (Nat.pos_iff_ne_zero.1 hk), max_assoc, max_self]

theorem maxAbs_replicate (c : ℚ) {m : ℕ} (h : m ≠ 0) :
    maxAbs (List.replicate m c) = max 0 |c| := by
  rw [maxAbs, foldl_maxAbs_replicate c 0 m h]

theorem maxAbs_replicate_zero (m : ℕ) : maxAbs (List.replicate m (0 : ℚ)) = 0 := by
  rcases Nat.eq_zero_or_pos m with h | h
  · subst h; rfl
  · rw [maxAbs_replicate 0 (Nat.pos_iff_ne_zero.1 h), abs_zero, max_self]

theorem windowMax_replicate_zero (n i ws : ℕ) :
    windowMax (List.replicate n (0 : ℚ)) i ws = 0 := by
  rw [windowMax, windowSlice, List.drop_replicate, List.take_replicate]
  exact maxAbs_replicate_zero _

theorem getD_replicate_zero : ∀ n i : ℕ, (List.replicate n (0 : ℚ)).getD i 0 = 0 := by
  intro n
  induction n with
  | zero => intro i; rfl
  | succ k ih =>
    intro i
    cases i with
    | zero => rw [List.replicate_succ, List.getD_cons_zero]
    | succ j => rw [List.replicate_succ, List.getD_cons_succ]; exact ih j

theorem adjustSample_zero (sm r : ℚ) : adjustSample sm 0 0 r 0 = 0 := by
  rw [adjustSample, if_neg]
  rw [abs_zero]
  exact lt_irrefl 0

/-- C10: on an all-zero signal, under any configuration whose derived
window and skip sizes are positive (the spec's validity precondition,
outside of which the program raises `ValueError` before scanning), the
estimator returns `(0, 0)` and the amplitude-jitter transform is the
identity, whatever the random source. -/
theorem c10_silent_signal_noop (winS skipS frac sm : ℚ) (rand : ℕ → ℚ)
    (rate n : ℕ) (hn : 0 < n)
    (hws : 0 < (derivedWindow winS rate).toNat)
    (hskip : 0 < (derivedWindow skipS rate).toNat) :
    calculate_noise_floor winS skipS frac (List.replicate n 0) rate = (0, 0) ∧
    adjust_amplitude sm 0 0 rand (List.replicate n 0) = List.replicate n 0 := by
  constructor
  · simp only [calculate_noise_floor, maxAbs_replicate_zero, Prod.mk.injEq]
    refine ⟨?_, trivial⟩
    rcases minD_zero_cases (scanLoop frac 0 (List.replicate n 0)
        (derivedWindow winS rate).toNat
        (offsets (List.replicate n (0:ℚ)).length (derivedWindow winS rate).toNat
          (derivedWindow skipS rate).toNat) []) with h | h
    · exact h
    · rcases scanLoop_subset _ _ _ _ _ _ _ h with habs | ⟨i, hi⟩
      · exact absurd habs (List.not_mem_nil _)
      · rw [hi, windowMax_replicate_zero]
  · rw [adjust_amplitude]
    have hfun : (fun i => adjustSample sm 0 0 (rand i)
        ((List.replicate n (0:ℚ)).getD i 0)) = fun _ => (0 : ℚ) :=
      funext fun i => by rw [getD_replicate_zero, adjustSample_zero]
    rw [hfun, List.map_const', List.length_range, List.length_replicate]

theorem getD_map_range (f : ℕ → ℚ) {i n : ℕ} (h : i < n) :
    ((List.range n).map f).getD i 0 = f i := by
  rw [List.getD_eq_getElem?_getD, List.getElem?_map, List.getElem?_range h]
  rfl

/-- C7: a sample at or below the noise floor passes through the
amplitude-jitter transform unchanged, whatever the random source. -/
theorem c7_below_floor_unchanged (sm nf ma : ℚ) (rand : ℕ → ℚ)
    (data : List ℚ) (i : ℕ) (hi : i < data.length)
    (h : |data.getD i 0| ≤ nf) :
    (adjust_amplitude sm nf ma rand data).getD i 0 = data.getD i 0 := by
  rw [adjust_amplitude, getD_map_range _ hi, adjustSample,
    if_neg (not_lt.mpr h)]

theorem c7_witness :
    (0 < ([(1:ℚ)/4, 9/10]).length ∧ |([(1:ℚ)/4, 9/10]).getD 0 0| ≤ 1/2) ∧
    (adjust_amplitude (1/10) (1/2) 1 (fun _ => 6/5) [(1:ℚ)/4, 9/10]).getD 0 0 =
      ([(1:ℚ)/4, 9/10]).getD 0 0 :=
  ⟨⟨by simp, by
      rw [List.getD_cons_zero, abs_of_nonneg (show (0:ℚ) ≤ 1/4 by norm_num)]
      norm_num⟩,
   c7_below_floor_unchanged (1/10) (1/2) 1 (fun _ => 6/5) [(1:ℚ)/4, 9/10] 0
     (by simp)
     (by
       rw [List.getD_cons_zero, abs_of_nonneg (show (0:ℚ) ≤ 1/4 by norm_num)]
       norm_num)⟩

theorem smooth_transition_factor_mem (a b c d : ℚ) :
    0 ≤ smooth_transition_factor a b c d ∧ smooth_transition_factor a b c d ≤ 1 := by
  simp only [smooth_transition_factor]
  split_ifs with h1 h2
  · exact ⟨le_refl 0, by norm_num⟩
  · exact ⟨by norm_num, le_refl 1⟩
  · exact ⟨le_max_left 0 _, max_le (by norm_num) (min_le_left 1 _)⟩

theorem gain_bounds (t r lo hi : ℚ) (ht0 : 0 ≤ t) (ht1 : t ≤ 1)
    (hlo : lo ≤ r) (hhi : r ≤ hi) :
    min 1 lo ≤ amplitude_adjustment t r ∧ amplitude_adjustment t r ≤ max 1 hi := by
  rw [amplitude_adjustment]
  constructor
  · rcases le_total r 1 with h | h
    · have h1 : lo ≤ (1 - t) + t * r := by
        nlinarith [mul_nonneg (sub_nonneg.2 ht1) (sub_nonneg.2 h)]
      exact le_trans (min_le_right 1 lo) h1
    · have h1 : 1 ≤ (1 - t) + t * r := by
        nlinarith [mul_nonneg ht0 (sub_nonneg.2 h)]
      exact le_trans (min_le_left 1 lo) h1
  · rcases le_total r 1 with h | h
    · have h1 : (1 - t) + t * r ≤ 1 := by
        nlinarith [mul_nonneg ht0 (sub_nonneg.2 h)]
      exact le_trans h1 (le_max_left 1 hi)
    · have h1 : (1 - t) + t * r ≤ r := by
        nlinarith [mul_nonneg (sub_nonneg.2 ht1) (sub_nonneg.2 h)]
      exact le_trans (le_trans h1 hhi) (le_max_right 1 hi)

/-- C9: for a qualifying sample and a random draw `r ∈ [lo, hi]` with
`0 < lo ≤ hi`, the applied gain `(1 - t) + t * r` lies within
`[min(1, lo), max(1, hi)]`. -/
theorem c9_bounded_gain (sm nf ma s r lo hi : ℚ) (hlo0 : 0 < lo)
    (hlo : lo ≤ r) (hhi : r ≤ hi) (hq : nf < |s|) :
    min 1 lo ≤ amplitude_adjustment (smooth_transition_factor sm nf ma |s|) r ∧
    amplitude_adjustment (smooth_transition_factor sm nf ma |s|) r ≤ max 1 hi :=
  gain_bounds (smooth_transition_factor sm nf ma |s|) r lo hi
    (smooth_transition_factor_mem sm nf ma |s|).1
    (smooth_transition_factor_mem sm nf ma |s|).2 hlo hhi

theorem c9_witness :
    ((0:ℚ) < 4/5 ∧ (4/5 : ℚ) ≤ 1 ∧ (1:ℚ) ≤ 6/5 ∧ (1/10 : ℚ) < |(1:ℚ)/2|) ∧
    (min 1 (4/5) ≤
       amplitude_adjustment (smooth_transition_factor (1/10) (1/10) 1 |(1:ℚ)/2|) 1 ∧
     amplitude_adjustment (smooth_transition_factor (1/10) (1/10) 1 |(1:ℚ)/2|) 1 ≤
       max 1 (6/5)) :=
  ⟨⟨by norm_num, by norm_num, by norm_num, by
      rw [abs_of_nonneg (show (0:ℚ) ≤ 1/2 by norm_num)]
      norm_num⟩,
   c9_bounded_gain (1/10) (1/10) 1 (1/2) 1 (4/5) (6/5) (by norm_num)
     (by norm_num) (by norm_num)
     (by
       rw [abs_of_nonneg (show (0:ℚ) ≤ 1/2 by norm_num)]
       norm_num)⟩

/-- C3: at a zero denominator (`smooth_amp_frac * (max_amp - nfloor_amp) = 0`)
with a qualifying sample (`abs_val = 9/10` above the floor `1/2`), the
transition factor evaluates to `1`: the value the spec's guard prescribes,
though the source reaches it through an IEEE division by zero rather than an
explicit `denom == 0` branch. -/
theorem c3_denom_zero_eval :
    (1/10 : ℚ) * ((1/2 : ℚ) - 1/2) = 0 ∧ ((1/2 : ℚ) < 9/10) ∧
    smooth_transition_factor (1/10) (1/2) (1/2) (9/10) = 1 := by
  refine ⟨by norm_num, by norm_num, ?_⟩
  simp only [smooth_transition_factor]
  norm_num

theorem dw_nfloor_1000 : derivedWindow (1/20) 1000 = 50 :=
  derivedWindow_eq (by norm_num) (by norm_num) (by norm_num)

theorem dw_skip_1000 : derivedWindow (1/50) 1000 = 20 :=
  derivedWindow_eq (by norm_num) (by norm_num) (by norm_num)

theorem dw_nfloor_100 : derivedWindow (1/20) 100 = 5 :=
  derivedWindow_eq (by norm_num) (by norm_num) (by norm_num)

theorem dw_skip_100 : derivedWindow (1/50) 100 = 2 :=
  derivedWindow_eq (by norm_num) (by norm_num) (by norm_num)

/-- When a full window fits strictly inside the signal, the offset list
starts at `0`. -/
theorem offsets_cons_zero {len ws skip : ℕ} (h : ws < len) (hs : 0 < skip) :
    ∃ t, offsets len ws skip = 0 :: t := by
  rw [offsets]
  have hD : 0 < (len - ws + skip - 1) / skip := by
    rw [Nat.lt_iff_add_one_le, Nat.le_div_iff_mul_le hs]
    omega
  obtain ⟨k, hk⟩ := Nat.exists_eq_succ_of_ne_zero (Nat.pos_iff_ne_zero.1 hD)
  rw [hk, List.range_succ_eq_map, List.map_cons, Nat.zero_mul]
  exact ⟨_, rfl⟩

theorem toNat_lit_50 : ((50 : ℤ)).toNat = 50 := rfl

theorem toNat_lit_20 : ((20 : ℤ)).toNat = 20 := rfl

theorem toNat_lit_5 : ((5 : ℤ)).toNat = 5 := rfl

theorem toNat_lit_2 : ((2 : ℤ)).toNat = 2 := rfl

theorem length_c1data : c1data.length = 1000 := by
  rw [c1data, List.length_append, List.length_replicate, List.length_replicate]

theorem maxAbs_c1data : maxAbs c1data = 9/10 := by
  rw [c1data, maxAbs, List.foldl_append,
    foldl_maxAbs_replicate (1/100) 0 200 (by decide),
    foldl_maxAbs_replicate (9/10) (max 0 |(1:ℚ)/100|) 800 (by decide),
    abs_of_nonneg (show (0:ℚ) ≤ 1/100 by norm_num),
    abs_of_nonneg (show (0:ℚ) ≤ 9/10 by norm_num),
    max_eq_right (show (0:ℚ) ≤ 1/100 by norm_num),
    max_eq_right (show (1/100 : ℚ) ≤ 9/10 by norm_num)]

theorem windowMax_c1data : windowMax c1data 0 50 = 1/100 := by
  rw [windowMax, windowSlice, List.drop_zero, c1data,
    List.take_append_of_le_length
      (by rw [List.length_replicate]; norm_num :
        (50:ℕ) ≤ (List.replicate 200 ((1:ℚ)/100)).length),
    List.take_replicate, show (50 ⊓ 200 : ℕ) = 50 by decide,
    maxAbs_replicate _ (by decide : (50:ℕ) ≠ 0),
    abs_of_nonneg (show (0:ℚ) ≤ 1/100 by norm_num),
    max_eq_right (show (0:ℚ) ≤ 1/100 by norm_num)]

/-- C1: on the spec's §8 scenario (1000 samples at 1000 Hz, a 200-sample
lead-in of amplitude `1/100`, then amplitude `9/10`, default configuration)
the estimator returns `noise_floor_amp = 0`, not the expected `≈ 1/100`:
the very first window's maximum `1/100` already exceeds the empty-list
threshold `1/10 * (9/10 - 9/10) = 0`, so the scan halts without accepting
any window. -/
theorem c1_concrete_scenario_eval :
    calculate_noise_floor (1/20) (1/50) (1/10) c1data 1000 = (0, 9/10) := by
  obtain ⟨t, ht⟩ := offsets_cons_zero (show 50 < 1000 by decide)
    (show 0 < 20 by decide)
  simp only [calculate_noise_floor, dw_nfloor_1000, dw_skip_1000,
    toNat_lit_50, toNat_lit_20, length_c1data, maxAbs_c1data]
  rw [ht, scanLoop_cons, if_pos]
  · rfl
  · rw [windowMax_c1data, show minD [] ((9:ℚ)/10) = 9/10 from rfl]
    norm_num

theorem length_c2data : c2data.length = 6 := by
  rw [c2data, List.length_append, List.length_replicate]
  rfl

theorem maxAbs_c2data : maxAbs c2data = 1 := by
  rw [c2data, maxAbs, List.foldl_append,
    foldl_maxAbs_replicate (1/20) 0 5 (by decide),
    List.foldl_cons, List.foldl_nil,
    abs_of_nonneg (show (0:ℚ) ≤ 1/20 by norm_num),
    abs_of_nonneg (show (0:ℚ) ≤ 1 by norm_num),
    max_eq_right (show (0:ℚ) ≤ 1/20 by norm_num),
    max_eq_right (show (1/20 : ℚ) ≤ 1 by norm_num)]

theorem windowMax_c2data : windowMax c2data 0 5 = 1/20 := by
  rw [windowMax, windowSlice, List.drop_zero, c2data,
    List.take_append_of_le_length
      (by rw [List.length_replicate] :
        (5:ℕ) ≤ (List.replicate 5 ((1:ℚ)/20)).length),
    List.take_replicate, show (5 ⊓ 5 : ℕ) = 5 by decide,
    maxAbs_replicate _ (by decide : (5:ℕ) ≠ 0),
    abs_of_nonneg (show (0:ℚ) ≤ 1/20 by norm_num),
    max_eq_right (show (0:ℚ) ≤ 1/20 by norm_num)]

/-- C2: with an empty accepted-list the code's stopping threshold is
`nfloor_max_frac * (max_amp - max_amp) = 0`, not
`nfloor_max_frac * max_amp`: on `c2data` the first window's maximum `1/20`
is below `1/10 * max_amp = 1/10` (so by the claim the scan should continue),
yet the scan stops on the first window and returns `noise_floor_amp = 0`. -/
theorem c2_empty_threshold_eval :
    windowMax c2data 0 5 ≤ 1/10 * maxAbs c2data ∧
    calculate_noise_floor (1/20) (1/50) (1/10) c2data 100 = (0, 1) := by
  constructor
  · rw [windowMax_c2data, maxAbs_c2data]
    norm_num
  · obtain ⟨t, ht⟩ := offsets_cons_zero (show 5 < 6 by decide)
      (show 0 < 2 by decide)
    simp only [calculate_noise_floor, dw_nfloor_100, dw_skip_100,
      toNat_lit_5, toNat_lit_2, length_c2data, maxAbs_c2data]
    rw [ht, scanLoop_cons, if_pos]
    · rfl
    · rw [windowMax_c2data, show minD [] (1:ℚ) = 1 from rfl]
      norm_num

/-- C4 (amended): under the spec's validity preconditions on the window
parameters (positive derived window and skip sizes; a zero skip would make
Python's `range` itself raise `ValueError`), a signal with fewer than
`window_size` samples does not make the estimator fail with
`InsufficientSamples`: the scan examines no windows and the defined value
`(0, max_amp)` is returned. -/
theorem c4_short_signal_no_failure (winS skipS frac : ℚ) (data : List ℚ)
    (rate : ℕ) (hne : data ≠ [])
    (hws : 0 < (derivedWindow winS rate).toNat)
    (hskip : 0 < (derivedWindow skipS rate).toNat)
    (h : data.length < (derivedWindow winS rate).toNat) :
    calculate_noise_floor winS skipS frac data rate = (0, maxAbs data) := by
  simp only [calculate_noise_floor]
  rw [offsets_nil_of_le _ (le_of_lt h), scanLoop_nil]
  rfl

theorem calculate_single_eval :
    calculate_noise_floor (1/20) (1/50) (1/10) [(1:ℚ)/2] 1000 = (0, 1/2) := by
  simp only [calculate_noise_floor, dw_nfloor_1000, dw_skip_1000,
    toNat_lit_50, toNat_lit_20]
  rw [show ([(1:ℚ)/2]).length = 1 from rfl,
    offsets_nil_of_le _ (by decide : (1:ℕ) ≤ 50), scanLoop_nil]
  rw [show minD [] (0:ℚ) = 0 from rfl, maxAbs, List.foldl_cons, List.foldl_nil,
    abs_of_nonneg (show (0:ℚ) ≤ 1/2 by norm_num),
    max_eq_right (show (0:ℚ) ≤ 1/2 by norm_num)]

/-- C4 (counterexample): a 1-sample signal with the default 50-sample window
does not make the estimator fail: it returns the concrete partial result
`(0, 1/2)`, contradicting "fails with InsufficientSamples, returning no
partial result". -/
theorem c4_short_signal_returns_result :
    ([(1:ℚ)/2]).length < (derivedWindow (1/20) 1000).toNat ∧
    calculate_noise_floor (1/20) (1/50) (1/10) [(1:ℚ)/2] 1000 = (0, 1/2) :=
  ⟨by rw [dw_nfloor_1000]; decide, calculate_single_eval⟩

theorem c4_witness :
    (([(1:ℚ)/2] ≠ []) ∧ 0 < (derivedWindow (1/20) 1000).toNat ∧
      0 < (derivedWindow (1/50) 1000).toNat ∧
      ([(1:ℚ)/2]).length < (derivedWindow (1/20) 1000).toNat) ∧
    calculate_noise_floor (1/20) (1/50) (1/10) [(1:ℚ)/2] 1000 =
      (0, maxAbs [(1:ℚ)/2]) :=
  ⟨⟨by simp, by rw [dw_nfloor_1000]; decide, by rw [dw_skip_1000]; decide,
    by rw [dw_nfloor_1000]; decide⟩,
   c4_short_signal_no_failure (1/20) (1/50) (1/10) [(1:ℚ)/2] 1000 (by simp)
     (by rw [dw_nfloor_1000]; decide) (by rw [dw_skip_1000]; decide)
     (by rw [dw_nfloor_1000]; decide)⟩

theorem c8_witness : 0 ≤ (0:ℚ) ∧ (0:ℚ) ≤ 1/2 :=
  c8_floor_le_max (1/20) (1/50) (1/10) [(1:ℚ)/2] 1000 0 (1/2) (by simp)
    (by rw [dw_nfloor_1000]; decide) (by rw [dw_skip_1000]; decide)
    calculate_single_eval

theorem c10_witness :
    (0 < 10 ∧ 0 < (derivedWindow (1/20) 100).toNat ∧
      0 < (derivedWindow (1/50) 100).toNat) ∧
    (calculate_noise_floor (1/20) (1/50) (1/10) (List.replicate 10 0) 100 = (0, 0) ∧
     adjust_amplitude (1/10) 0 0 (fun _ => 6/5) (List.replicate 10 0) =
       List.replicate 10 0) :=
  ⟨⟨by decide, by rw [dw_nfloor_100]; decide, by rw [dw_skip_100]; decide⟩,
   c10_silent_signal_noop (1/20) (1/50) (1/10) (1/10) (fun _ => 6/5) 100 10
     (by decide) (by rw [dw_nfloor_100]; decide) (by rw [dw_skip_100]; decide)⟩
